import Mathlib

/-!
Shallow embedding of the disclosure-feed reconciliation pipeline.

Sources embedded here:
- src/tools/scrape-otc-and-sec.js  (referred to below as version A)
- src/unnamed/part_000             (referred to below as version B)
- src/script.js                    (the feed-consumer widget)

Both A and B define a candidate-record pipeline (extract, normalize,
deduplicate, sort, write); the widget consumes the written feed.
JavaScript strings are modelled as Lean String values, with the
JavaScript relational comparison on strings modelled as lexicographic
comparison of their character code points (lexLt below), and nullable
string fields modelled as Option String.
-/

/-! ## JavaScript string primitives -/

/-- Lexicographic comparison of character lists by code point.  Model of
the JavaScript `<` operator applied to two strings (which compares code
units; identical on the data appearing in this pipeline). -/
def lexLt : List Char → List Char → Bool
  | _, [] => false
  | [], _ :: _ => true
  | a :: as, b :: bs =>
    if a.toNat < b.toNat then true
    else if b.toNat < a.toNat then false
    else lexLt as bs

/-- Model of the JavaScript `<` operator on two string values. -/
def jsStrLt (a b : String) : Bool := lexLt a.data b.data

/-- Model of JavaScript `Number(s)` restricted to strings of decimal
digits, the only inputs the pipeline feeds it (zero-padded issuer
identifiers such as "0000123456"). -/
def jsStringToNat (s : String) : Nat :=
  s.data.foldl (fun n c => n * 10 + (c.toNat - 48)) 0

/-- Decimal digits of a natural number (fuel-driven so that the kernel
can evaluate it; fuel n+1 always suffices). -/
def natToDigitsAux : Nat → Nat → List Char
  | 0, _ => []
  | fuel + 1, n =>
    if n < 10 then [Nat.digitChar n]
    else natToDigitsAux fuel (n / 10) ++ [Nat.digitChar (n % 10)]

/-- Model of JavaScript number-to-string conversion for natural numbers,
as used when a numeric issuer identifier is interpolated into a URL. -/
def natToString (n : Nat) : String := ⟨natToDigitsAux (n + 1) n⟩

/-! ## Data model: candidate records -/

/-- Candidate record produced by the extractors.  Version A's objects
carry no description field until the final map in its main IIFE; the
field is simply never read by A's mergeAndSort, so a single record shape
serves both versions. -/
structure Item where
  source : String
  title : String
  link : String
  date : Option String
  description : String
deriving DecidableEq

/-- Record shape written by version A's final map:
`{ title, date, description, link }`. -/
structure FeedRecord where
  title : String
  date : Option String
  description : String
  link : String
deriving DecidableEq

/-- JavaScript truthiness of a string: falsy exactly when empty. -/
def truthyStr (s : String) : Bool := !(decide (s = ""))

/-- JavaScript truthiness of a nullable string field: null and the empty
string are falsy. -/
def truthyOptStr : Option String → Bool
  | none => false
  | some s => truthyStr s

/-! ## Reconciler (mergeAndSort, both versions) -/

/-- Identity key of a candidate: the template literal
`${x.title}|${x.link}|${x.date}` from both versions of mergeAndSort.
A null date stringifies to "null" in JavaScript template literals. -/
def keyOf (x : Item) : String :=
  x.title ++ "|" ++ x.link ++ "|" ++ (match x.date with | some s => s | none => "null")

/-- Model of `Map.prototype.set` on a string-keyed insertion-ordered map
(association list): an existing key keeps its position and gets the new
value; a new key is appended. -/
def mapSet (m : List (String × Item)) (k : String) (v : Item) : List (String × Item) :=
  if m.any (fun p => decide (p.1 = k)) then
    m.map (fun p => if p.1 = k then (k, v) else p)
  else m ++ [(k, v)]

/-- The dedupe loop shared by both versions of mergeAndSort: fold the
input into the map, inserting only records passing `keep` (version A
skips incomplete records; version B keeps everything). -/
def dedupeInto (keep : Item → Bool) (m : List (String × Item)) (items : List Item) :
    List (String × Item) :=
  items.foldl (fun m i => if keep i then mapSet m (keyOf i) i else m) m

/-- Version A's guard `if (!i.title || !i.link || !i.date) continue;`:
a record is inserted only when title, link and date are all truthy. -/
def keepA (i : Item) : Bool := truthyStr i.title && truthyStr i.link && truthyOptStr i.date

/-- Version B's mergeAndSort has no guard: every record is inserted. -/
def keepB (_ : Item) : Bool := true

/-- Model of the JavaScript `<` operator applied to the (nullable) date
fields, as in the sort comparator `a.date < b.date`: two strings compare
lexicographically; when either side is null the comparison coerces to a
numeric comparison involving NaN or 0 and yields false for the
dash-bearing date strings of this pipeline. -/
def jsLtOpt : Option String → Option String → Bool
  | some x, some y => jsStrLt x y
  | _, _ => false

/-- The sort comparator `(a, b) => (a.date < b.date ? 1 : -1)` places
a no later than b exactly when it returns -1, i.e. when `a.date < b.date`
is false. -/
def dateLe (a b : Item) : Bool := !(jsLtOpt a.date b.date)

/-- Stable insertion of a record into a list sorted by dateLe.  Together
with jsSortByDateDesc this models the stable sort required of
`Array.prototype.sort`; every property proved below is independent of
how ties (equal dates) are ordered. -/
def jsInsert (a : Item) : List Item → List Item
  | [] => [a]
  | b :: l => if dateLe a b then a :: b :: l else b :: jsInsert a l

/-- Stable sort by descending date, the model of
`.sort((a, b) => (a.date < b.date ? 1 : -1))`. -/
def jsSortByDateDesc : List Item → List Item
  | [] => []
  | a :: l => jsInsert a (jsSortByDateDesc l)

/-- mergeAndSort from src/tools/scrape-otc-and-sec.js (version A):
skips records with falsy title, link or date, dedupes by identity key
(later insertions overwrite), then sorts by descending date. -/
def mergeAndSortA (items : List Item) : List Item :=
  jsSortByDateDesc ((dedupeInto keepA [] items).map Prod.snd)

/-- mergeAndSort from src/unnamed/part_000 (version B): dedupes every
record by identity key (later insertions overwrite), then sorts by
descending date; it has no completeness guard of its own. -/
def mergeAndSortB (items : List Item) : List Item :=
  jsSortByDateDesc ((dedupeInto keepB [] items).map Prod.snd)

/-! ## Regulatory (SEC) extractor -/

/-- The `filings.recent` parallel arrays of the submissions JSON. -/
structure RecentFilings where
  form : List String
  filingDate : List String
  accessionNumber : List String
  primaryDocument : List String

/-- The fixed allow-list of disclosure-relevant form types, identical in
both versions. -/
def keepForms : List String :=
  ["8-K", "10-Q", "10-K", "6-K", "S-1", "S-3", "SC 13D", "SC 13G", "DEF 14A"]

/-- Model of the dash-stripping call `acc.replace(dashRegexGlobal, "")`:
remove every dash. -/
def stripDashes (s : String) : String := ⟨s.data.filter (fun c => decide (c ≠ '-'))⟩

/-- URL construction shared by both versions:
`https://www.sec.gov/Archives/edgar/data/` then `Number(cik10)`, a slash,
the accession number with dashes stripped, a slash, and the primary
document name. -/
def secArchiveLink (cik10 acc primary : String) : String :=
  "https://www.sec.gov/Archives/edgar/data/" ++ natToString (jsStringToNat cik10) ++ "/"
    ++ stripDashes acc ++ "/" ++ primary

/-- Parallel-array access `recent.xs[i]`; out-of-range access (possible
only when the upstream arrays have mismatched lengths, a case no claim
exercises) is modelled as the empty string. -/
def arrGet (xs : List String) (i : Nat) : String := xs.getD i ""

/-- Pure core of getSecRecentFilings from src/unnamed/part_000 (version
B), after the HTTP fetch has produced `filings.recent`: cap at the first
200 entries by form-array length, keep only allow-listed forms, and map
each kept entry to a candidate record carrying the fixed provenance
description "SEC EDGAR filing". -/
def getSecRecentFilings (recent : RecentFilings) (cik10 : String) : List Item :=
  (List.range (min recent.form.length 200)).filterMap (fun i =>
    let form := arrGet recent.form i
    if keepForms.any (fun f => decide (f = form)) then
      some ⟨"SEC", form ++ " filed",
        secArchiveLink cik10 (arrGet recent.accessionNumber i) (arrGet recent.primaryDocument i),
        some (arrGet recent.filingDate i), "SEC EDGAR filing"⟩
    else none)

/-- Model of `String(submissions.cik).padStart(10, "0")` from version A. -/
def padStart10 (s : String) : String :=
  if s.length ≥ 10 then s else ⟨List.replicate (10 - s.length) '0' ++ s.data⟩

/-- Pure core of filterMapSecFilings from src/tools/scrape-otc-and-sec.js
(version A): cap at the first 200 entries by accession-array length, keep
only allow-listed forms, and map each kept entry to a candidate record;
version A attaches no description here (its main IIFE adds one later). -/
def filterMapSecFilings (recent : RecentFilings) (cik : String) : List Item :=
  (List.range (min recent.accessionNumber.length 200)).filterMap (fun i =>
    let form := arrGet recent.form i
    if keepForms.any (fun f => decide (f = form)) then
      some ⟨"SEC", form ++ " filed",
        secArchiveLink (padStart10 cik) (arrGet recent.accessionNumber i)
          (arrGet recent.primaryDocument i),
        some (arrGet recent.filingDate i), ""⟩
    else none)

/-! ## Main pipelines -/

/-- The final map of version A's main IIFE:
`{ title, date, description: i.source === "SEC" ? "SEC EDGAR filing" :
"OTC Disclosure & News Service", link }`. -/
def finalizeA (i : Item) : FeedRecord :=
  ⟨i.title, i.date,
    if i.source = "SEC" then "SEC EDGAR filing" else "OTC Disclosure & News Service",
    i.link⟩

/-- Model of version A's main IIFE, with the webpage (OTC) extraction
outcome passed in as an Except value: version A has no try/catch around
`await scrapeOtcDisclosures()`, so a throw there propagates to the
trailing `.catch` which exits the process without writing the feed;
on success it merges OTC before SEC candidates and writes the mapped
feed records. -/
def runPipelineA (otc : Except String (List Item)) (sec : List Item) :
    Except String (List FeedRecord) :=
  match otc with
  | .error e => .error e
  | .ok otcItems => .ok ((mergeAndSortA (otcItems ++ sec)).map finalizeA)

/-- Model of version B's main IIFE: the webpage (OTC) extraction is
wrapped in try/catch (`console.warn(...); continue with SEC only`), so a
throw there degrades to an empty OTC list; SEC candidates come first in
the merged input and the run always completes with a written feed. -/
def runPipelineB (otc : Except String (List Item)) (sec : List Item) :
    Except String (List Item) :=
  .ok (mergeAndSortB (sec ++ (match otc with | .ok l => l | .error _ => [])))

/-! ## Date normalizer (toISO) -/

/-- JavaScript values reaching the date normalizer in this pipeline. -/
inductive JSVal where
  | null
  | undefined
  | str (s : String)
deriving DecidableEq

/-- JavaScript truthiness of such a value: null, undefined and the empty
string are falsy. -/
def jsTruthy : JSVal → Bool
  | .null => false
  | .undefined => false
  | .str s => truthyStr s

/-- Numeric value of a decimal digit character. -/
def digitVal (c : Char) : Nat := c.toNat - 48

/-- Decimal digit test on code points (equivalent to Char.isDigit,
phrased arithmetically). -/
def isDigitCp (c : Char) : Bool := 48 ≤ c.toNat && c.toNat ≤ 57

/-- Gregorian leap-year rule, as used by the JavaScript Date machinery. -/
def isLeapYear (y : Nat) : Bool := y % 4 == 0 && (y % 100 != 0 || y % 400 == 0)

/-- Day count of a month in a given year. -/
def daysInMonth (y m : Nat) : Nat :=
  if m = 2 then (if isLeapYear y then 29 else 28)
  else if m = 4 ∨ m = 6 ∨ m = 9 ∨ m = 11 then 30 else 31

/-- Modelled builtin: `new Date(s)` on a string, restricted to the
ECMA-262 date-only profile `YYYY-MM-DD` (parsed as a UTC calendar date),
the only string family whose behaviour the claims quantify over.  A
string of that shape with an out-of-range month or calendar day yields an
invalid date (none), matching the host engines; strings outside this
profile (host-specific fallback formats) are outside the modelled domain
and map to none. -/
def jsParseDateOnly (s : String) : Option (Nat × Nat × Nat) :=
  match s.data with
  | [y1, y2, y3, y4, h1, m1, m2, h2, d1, d2] =>
    if isDigitCp y1 && isDigitCp y2 && isDigitCp y3 && isDigitCp y4
        && decide (h1 = '-') && isDigitCp m1 && isDigitCp m2
        && decide (h2 = '-') && isDigitCp d1 && isDigitCp d2 then
      let y := ((digitVal y1 * 10 + digitVal y2) * 10 + digitVal y3) * 10 + digitVal y4
      let m := digitVal m1 * 10 + digitVal m2
      let d := digitVal d1 * 10 + digitVal d2
      if 1 ≤ m ∧ m ≤ 12 ∧ 1 ≤ d ∧ d ≤ daysInMonth y m then some (y, m, d) else none
    else none
  | _ => none

/-- Modelled builtin: `dt.toISOString().slice(0, 10)` for a UTC calendar
date, i.e. the zero-padded rendering `YYYY-MM-DD`. -/
def renderISODate (y m d : Nat) : String :=
  ⟨[Nat.digitChar (y / 1000 % 10), Nat.digitChar (y / 100 % 10),
    Nat.digitChar (y / 10 % 10), Nat.digitChar (y % 10), '-',
    Nat.digitChar (m / 10 % 10), Nat.digitChar (m % 10), '-',
    Nat.digitChar (d / 10 % 10), Nat.digitChar (d % 10)]⟩

/-- toISO from src/unnamed/part_000 (the same computation appears inline
in version A at the end of scrapeOtcDisclosures):
`const dt = d ? new Date(d) : null;
 return dt && !isNaN(dt) ? dt.toISOString().slice(0, 10) : null;`
The function is total in this embedding: every input yields a result,
matching the throw-free JavaScript source. -/
def toISO (v : JSVal) : Option String :=
  if jsTruthy v then
    match v with
    | .str s =>
      match jsParseDateOnly s with
      | some (y, m, d) => some (renderISODate y m d)
      | none => none
    | _ => none
  else none

/-- Valid calendar date with a four-digit year, the domain of the
canonical `YYYY-MM-DD` representation. -/
def ValidYMD (y m d : Nat) : Prop :=
  y ≤ 9999 ∧ 1 ≤ m ∧ m ≤ 12 ∧ 1 ≤ d ∧ d ≤ daysInMonth y m

/-- A string is an already-canonical date exactly when it is the
zero-padded `YYYY-MM-DD` rendering of a valid calendar date. -/
def IsCanonicalDate (s : String) : Prop :=
  ∃ y m d, ValidYMD y m d ∧ s = renderISODate y m d

/-! ## Feed consumer (widget, src/script.js) -/

/-- The fixed page size of the widget. -/
def PAGE_SIZE : Nat := 8

/-- The ceiling `Math.ceil(total / PAGE_SIZE)` named in the spec. -/
def ceilPages (total : Nat) : Nat := (total + PAGE_SIZE - 1) / PAGE_SIZE

/-- renderPage's page-count computation
`Math.max(1, Math.ceil(total / PAGE_SIZE))`. -/
def pagesOf (total : Nat) : Nat := max 1 (ceilPages total)

/-- renderPage's clamp `page = Math.min(Math.max(1, page), pages)`,
taking the number of filtered records and the prior page value (an
arbitrary integer: the prev/next handlers decrement and increment it
before renderPage runs). -/
def renderPageClamp (total : Nat) (page : Int) : Int :=
  min (max 1 page) (pagesOf total : Int)

/-- Replacement table of escapeHtml, applied per character: ampersand to
amp entity, less-than to lt entity, greater-than to gt entity, double
quote to quot entity, single quote to the numeric entity 039; every
other character passes through unchanged. -/
def escapeChar (c : Char) : List Char :=
  if c = '&' then "&amp;".data
  else if c = '<' then "&lt;".data
  else if c = '>' then "&gt;".data
  else if c = '"' then "&quot;".data
  else if c = '\'' then "&#039;".data
  else [c]

/-- Character-list form of escapeHtml. -/
def escList : List Char → List Char
  | [] => []
  | c :: cs => escapeChar c ++ escList cs

/-- escapeHtml from src/script.js: the global single-character-class
replacement `s.replace(specialCharClassGlobal, (c) => table[c])`, i.e.
the per-character replacement applied across the whole string. -/
def escapeHtml (s : String) : String := ⟨escList s.data⟩

/-- Checker: no raw markup-significant character occurs in the list. -/
def noRawSpecial (l : List Char) : Bool :=
  l.all (fun c => !(decide (c = '<') || decide (c = '>') || decide (c = '"') || decide (c = '\'')))

/-- Test that the second list begins with the first. -/
def startsWith : List Char → List Char → Bool
  | [], _ => true
  | _ :: _, [] => false
  | p :: ps, x :: xs => decide (p = x) && startsWith ps xs

/-- Tails of the five entities emitted by escapeHtml: what must follow
an ampersand for it to be the start of one of them. -/
def ampTailOk (rest : List Char) : Bool :=
  startsWith ['a', 'm', 'p', ';'] rest || startsWith ['l', 't', ';'] rest
    || startsWith ['g', 't', ';'] rest || startsWith ['q', 'u', 'o', 't', ';'] rest
    || startsWith ['#', '0', '3', '9', ';'] rest

/-- Checker: at every position holding an ampersand, the following
characters spell the tail of one of the five entities emitted by
escapeHtml (amp, lt, gt, quot, or the numeric 039 entity). -/
def ampOk : List Char → Bool
  | [] => true
  | c :: rest => (if c = '&' then ampTailOk rest else true) && ampOk rest

/-- Keys of the association-list model of the Map, in insertion order. -/
def keysOf (m : List (String × Item)) : List String := m.map Prod.fst

/-! ## Helper lemmas: permutation facts about the sort model -/

theorem jsInsert_perm (a : Item) : ∀ (l : List Item), (jsInsert a l).Perm (a :: l)
  | [] => by simp [jsInsert]
  | b :: t => by
    cases hd : dateLe a b with
    | true => simp [jsInsert, hd]
    | false =>
      simp only [jsInsert, hd, Bool.false_eq_true, if_false]
      exact ((jsInsert_perm a t).cons b).trans (List.Perm.swap a b t)

theorem jsSort_perm : ∀ (l : List Item), (jsSortByDateDesc l).Perm l
  | [] => List.Perm.refl _
  | a :: t => by
    simp only [jsSortByDateDesc]
    exact (jsInsert_perm a _).trans ((jsSort_perm t).cons a)

theorem mem_jsSort {x : Item} {l : List Item} (h : x ∈ jsSortByDateDesc l) : x ∈ l :=
  (jsSort_perm l).mem_iff.mp h

/-! ## Helper lemmas: the dedupe map -/

theorem mapSet_snd_mem {m : List (String × Item)} {k : String} {v x : Item}
    (hx : x ∈ (mapSet m k v).map Prod.snd) : x ∈ m.map Prod.snd ∨ x = v := by
  unfold mapSet at hx
  split at hx
  · rcases List.mem_map.mp hx with ⟨p, hp, hpx⟩
    rcases List.mem_map.mp hp with ⟨q, hq, hqp⟩
    by_cases hk : q.1 = k
    · right
      rw [← hpx, ← hqp]
      simp [hk]
    · left
      rw [← hpx, ← hqp]
      simp only [hk, if_false]
      exact List.mem_map.mpr ⟨q, hq, rfl⟩
  · rw [List.map_append] at hx
    rcases List.mem_append.mp hx with h | h
    · exact Or.inl h
    · right; simpa using h

theorem mem_snd_dedupeInto {keep : Item → Bool} {x : Item} :
    ∀ {items : List Item} {m : List (String × Item)},
      x ∈ (dedupeInto keep m items).map Prod.snd →
      x ∈ m.map Prod.snd ∨ (x ∈ items ∧ keep x = true) := by
  intro items
  induction items with
  | nil => intro m h; exact Or.inl h
  | cons i t ih =>
    intro m h
    have h' : x ∈ (dedupeInto keep (if keep i then mapSet m (keyOf i) i else m) t).map Prod.snd := h
    rcases ih h' with hm | ht
    · cases hki : keep i with
      | true =>
        rw [hki] at hm
        simp only [if_true] at hm
        rcases mapSet_snd_mem hm with h1 | h1
        · exact Or.inl h1
        · subst h1; exact Or.inr ⟨List.mem_cons_self _ _, hki⟩
      | false =>
        rw [hki] at hm
        simp only [Bool.false_eq_true, if_false] at hm
        exact Or.inl hm
    · exact Or.inr ⟨List.mem_cons_of_mem _ ht.1, ht.2⟩

/-! ## Claim C2 -/

/-- C2, counterexample: in src/tools/scrape-otc-and-sec.js the main IIFE
has no try/catch around the webpage extraction, so a throw there aborts
the run with an error instead of writing a regulatory-only feed. -/
theorem c2_counterexample :
    runPipelineA (Except.error "navigation timeout") [] = Except.error "navigation timeout" := rfl

/-- C2 (amended): only the src/unnamed/part_000 main IIFE tolerates a
webpage-extraction failure: it treats the webpage result as empty and
completes, writing exactly the reconciled regulatory candidates; in the
src/tools version the same failure propagates and aborts the run. -/
theorem c2_partial_failure (e : String) (sec : List Item) :
    runPipelineB (Except.error e) sec = Except.ok (mergeAndSortB sec)
      ∧ runPipelineA (Except.error e) sec = Except.error e :=
  ⟨by simp [runPipelineB], rfl⟩

/-! ## Claim C5 -/

/-- C5, counterexample: on the scenario filing the regulatory extractor
labels the record "SEC EDGAR filing", not "regulatory filing". -/
theorem c5_counterexample :
    (getSecRecentFilings ⟨["8-K"], ["2024-03-01"], ["0001234567-24-000012"], ["ex1.htm"]⟩
        "0000123456").map Item.description ≠ ["regulatory filing"] := by decide

/-- C5 (amended): the scenario filing for issuer id "0000123456" yields
exactly one record, with title "8-K filed", date "2024-03-01", the fixed
provenance label "SEC EDGAR filing", and the link built from the unpadded
numeric identifier 123456, the dash-stripped accession number, and the
document name; the same holds for the src/tools pipeline after its final
description-attaching map. -/
theorem c5_scenario :
    getSecRecentFilings ⟨["8-K"], ["2024-03-01"], ["0001234567-24-000012"], ["ex1.htm"]⟩
        "0000123456"
      = [⟨"SEC", "8-K filed",
          "https://www.sec.gov/Archives/edgar/data/123456/000123456724000012/ex1.htm",
          some "2024-03-01", "SEC EDGAR filing"⟩]
    ∧ runPipelineA (Except.ok [])
        (filterMapSecFilings ⟨["8-K"], ["2024-03-01"], ["0001234567-24-000012"], ["ex1.htm"]⟩
          "0000123456")
      = Except.ok [⟨"8-K filed", some "2024-03-01", "SEC EDGAR filing",
          "https://www.sec.gov/Archives/edgar/data/123456/000123456724000012/ex1.htm"⟩] := by
  refine ⟨by decide, ?_⟩
  show Except.ok _ = _
  exact congrArg Except.ok (by decide)

/-! ## Claim C7 -/

/-- C7: the date normalizer maps null, undefined and the empty string to
a null result; being a total Lean function, it throws on none of them. -/
theorem c7_null_safety :
    toISO JSVal.null = none ∧ toISO JSVal.undefined = none ∧ toISO (JSVal.str "") = none := by
  decide

/-! ## Claim C8 -/

/-- C8, counterexample: with zero filtered records and prior page 5,
renderPage clamps the page to 1, which lies outside the interval
[1, ceil(0 / 8)] = [1, 0] stated by the claim. -/
theorem c8_counterexample :
    renderPageClamp 0 5 = 1 ∧ ¬(renderPageClamp 0 5 ≤ (ceilPages 0 : Int)) := by decide

/-- C8 (amended): after renderPage runs, the page index lies in
[1, max 1 (ceil(total / 8))] for every total (including 0) and every
prior page value; the upper bound max 1 (ceil(total / 8)) is exactly the
pages value the code computes, and coincides with the spec interval
whenever total is positive. -/
theorem c8_clamped (total : Nat) (page : Int) :
    1 ≤ renderPageClamp total page
      ∧ renderPageClamp total page ≤ (pagesOf total : Int)
      ∧ pagesOf total = max 1 (ceilPages total) := by
  unfold renderPageClamp pagesOf
  refine ⟨?_, ?_, rfl⟩ <;> omega

/-! ## Claim C9 -/

/-- C9: the identity key joins title, link and date with a pipe, so the
records (title "a|b", link "c") and (title "a", link "b|c") with the same
date have different (title, link, date) triples yet equal keys, and both
versions of mergeAndSort collapse them to the later-inserted record. -/
theorem c9_key_collision :
    mergeAndSortA [⟨"OTC", "a|b", "c", some "2024-01-01", "d1"⟩,
        ⟨"SEC", "a", "b|c", some "2024-01-01", "d2"⟩]
      = [⟨"SEC", "a", "b|c", some "2024-01-01", "d2"⟩]
    ∧ mergeAndSortB [⟨"OTC", "a|b", "c", some "2024-01-01", "d1"⟩,
        ⟨"SEC", "a", "b|c", some "2024-01-01", "d2"⟩]
      = [⟨"SEC", "a", "b|c", some "2024-01-01", "d2"⟩]
    ∧ keyOf ⟨"OTC", "a|b", "c", some "2024-01-01", "d1"⟩
        = keyOf ⟨"SEC", "a", "b|c", some "2024-01-01", "d2"⟩
    ∧ ¬(("a|b", "c", (some "2024-01-01" : Option String))
        = ("a", "b|c", (some "2024-01-01" : Option String))) := by
  refine ⟨by decide, by decide, by decide, by decide⟩

/-! ## Claim C1 -/

/-- C1, counterexample: mergeAndSort of src/unnamed/part_000 has no
completeness guard, so a candidate with a null date survives into its
reconciled output. -/
theorem c1_counterexample :
    mergeAndSortB [⟨"OTC", "t", "l", none, "x"⟩] = [⟨"OTC", "t", "l", none, "x"⟩]
      ∧ (⟨"OTC", "t", "l", none, "x"⟩ : Item).date = none := by decide

/-- C1 (amended): mergeAndSort of src/tools/scrape-otc-and-sec.js applies
the completeness filter itself, so for every input sequence its
reconciled output contains no record with an empty title, an empty link,
or a null date; in src/unnamed/part_000 the filter is applied by the
webpage extractor before merging, not by mergeAndSort. -/
theorem c1_complete (items : List Item) (r : Item) (hr : r ∈ mergeAndSortA items) :
    r.title ≠ "" ∧ r.link ≠ "" ∧ r.date ≠ none := by
  have hv : r ∈ (dedupeInto keepA [] items).map Prod.snd := mem_jsSort hr
  rcases mem_snd_dedupeInto hv with hm | ⟨_, hk⟩
  · simp at hm
  · have hk' : truthyStr r.title = true ∧ truthyStr r.link = true ∧ truthyOptStr r.date = true := by
      simpa [keepA, and_assoc] using hk
    obtain ⟨ht, hl, hk3⟩ := hk'
    refine ⟨?_, ?_, ?_⟩
    · simpa [truthyStr] using ht
    · simpa [truthyStr] using hl
    · cases hd : r.date with
      | none => rw [hd] at hk3; simp [truthyOptStr] at hk3
      | some s => simp

/-- C1, witness for the amended theorem at a concrete complete record. -/
theorem c1_witness :
    Item.mk "SEC" "t" "l" (some "2024-01-01") "d"
        ∈ mergeAndSortA [Item.mk "SEC" "t" "l" (some "2024-01-01") "d"]
      ∧ ((Item.mk "SEC" "t" "l" (some "2024-01-01") "d").title ≠ ""
        ∧ (Item.mk "SEC" "t" "l" (some "2024-01-01") "d").link ≠ ""
        ∧ (Item.mk "SEC" "t" "l" (some "2024-01-01") "d").date ≠ none) :=
  ⟨by decide,
    c1_complete [Item.mk "SEC" "t" "l" (some "2024-01-01") "d"]
      (Item.mk "SEC" "t" "l" (some "2024-01-01") "d") (by decide)⟩

/-! ## Claim C10 -/

theorem noRawSpecial_append (xs ys : List Char) :
    noRawSpecial (xs ++ ys) = (noRawSpecial xs && noRawSpecial ys) := by
  simp [noRawSpecial, List.all_append]

theorem noRawSpecial_escapeChar (c : Char) : noRawSpecial (escapeChar c) = true := by
  by_cases h1 : c = '&'
  · subst h1; decide
  · by_cases h2 : c = '<'
    · subst h2; decide
    · by_cases h3 : c = '>'
      · subst h3; decide
      · by_cases h4 : c = '"'
        · subst h4; decide
        · by_cases h5 : c = '\''
          · subst h5; decide
          · simp [escapeChar, h1, h2, h3, h4, h5, noRawSpecial]

theorem ampOk_escapeChar (c : Char) (r : List Char) :
    ampOk (escapeChar c ++ r) = ampOk r := by
  by_cases h1 : c = '&'
  · subst h1; rfl
  · by_cases h2 : c = '<'
    · subst h2; rfl
    · by_cases h3 : c = '>'
      · subst h3; rfl
      · by_cases h4 : c = '"'
        · subst h4; rfl
        · by_cases h5 : c = '\''
          · subst h5; rfl
          · simp only [escapeChar, h1, h2, h3, h4, h5, if_false, List.singleton_append]
            simp only [ampOk, h1, if_false, Bool.true_and]

theorem escList_props : ∀ l : List Char,
    noRawSpecial (escList l) = true ∧ ampOk (escList l) = true
  | [] => ⟨rfl, rfl⟩
  | c :: cs => by
    obtain ⟨ih1, ih2⟩ := escList_props cs
    constructor
    · show noRawSpecial (escapeChar c ++ escList cs) = true
      rw [noRawSpecial_append, noRawSpecial_escapeChar, ih1]
      rfl
    · show ampOk (escapeChar c ++ escList cs) = true
      rw [ampOk_escapeChar, ih2]

/-- C10: escapeHtml, which replaces each of the five markup-significant
characters by its HTML entity and leaves every other character as is,
yields a string with no raw less-than, greater-than, double-quote or
single-quote character, in which every ampersand begins one of the five
entities the table emits; rendered titles and descriptions therefore
cannot inject markup. -/
theorem c10_escape_html_safe (s : String) :
    noRawSpecial (escapeHtml s).data = true ∧ ampOk (escapeHtml s).data = true :=
  escList_props s.data

/-! ## Order facts about the comparator -/

theorem lexLt_asymm : ∀ (x y : List Char), lexLt x y = true → lexLt y x = false
  | x, [] => by intro h; simp [lexLt] at h
  | [], b :: bs => by intro _; simp [lexLt]
  | a :: as, b :: bs => by
    intro h
    simp only [lexLt] at h ⊢
    by_cases h1 : a.toNat < b.toNat
    · have h2 : ¬ b.toNat < a.toNat := by omega
      simp [h1, h2]
    · by_cases h2 : b.toNat < a.toNat
      · simp [h1, h2] at h
      · simp only [h1, h2, if_false] at h
        simp only [h1, h2, if_false]
        exact lexLt_asymm as bs h

theorem lexLt_neg_trans : ∀ (x y z : List Char),
    lexLt x y = false → lexLt y z = false → lexLt x z = false
  | x, y, [] => by intro _ _; simp [lexLt]
  | x, [], c :: cs => by intro _ h2; simp [lexLt] at h2
  | [], b :: bs, c :: cs => by intro h1 _; simp [lexLt] at h1
  | a :: as, b :: bs, c :: cs => by
    intro h1 h2
    simp only [lexLt] at h1 h2 ⊢
    by_cases hab : a.toNat < b.toNat
    · simp [hab] at h1
    · by_cases hbc : b.toNat < c.toNat
      · simp [hbc] at h2
      · by_cases hba : b.toNat < a.toNat
        · have hx1 : ¬ a.toNat < c.toNat := by omega
          have hx2 : c.toNat < a.toNat := by omega
          simp [hx1, hx2]
        · simp only [hab, hba, if_false] at h1
          by_cases hcb : c.toNat < b.toNat
          · have hx1 : ¬ a.toNat < c.toNat := by omega
            have hx2 : c.toNat < a.toNat := by omega
            simp [hx1, hx2]
          · simp only [hbc, hcb, if_false] at h2
            have hx1 : ¬ a.toNat < c.toNat := by omega
            have hx2 : ¬ c.toNat < a.toNat := by omega
            simp only [hx1, hx2, if_false]
            exact lexLt_neg_trans as bs cs h1 h2

theorem dateLe_swap {a b : Item} (h : dateLe a b = false) : dateLe b a = true := by
  rcases ha : a.date with _ | x
  · rw [dateLe, ha] at h
    simp [jsLtOpt] at h
  · rcases hb : b.date with _ | y
    · rw [dateLe, hb] at h
      simp [jsLtOpt] at h
    · rw [dateLe, ha, hb] at h
      rw [dateLe, hb, ha]
      cases hxy : lexLt x.data y.data with
      | false => simp [jsLtOpt, jsStrLt, hxy] at h
      | true => simp [jsLtOpt, jsStrLt, lexLt_asymm x.data y.data hxy]

theorem dateLe_trans_mid {a b c : Item} (hb : b.date.isSome)
    (h1 : dateLe a b = true) (h2 : dateLe b c = true) : dateLe a c = true := by
  rcases ha : a.date with _ | x
  · rw [dateLe, ha]
    simp [jsLtOpt]
  · rcases hc : c.date with _ | z
    · rw [dateLe, ha, hc]
      simp [jsLtOpt]
    · rcases hbd : b.date with _ | y
      · rw [hbd] at hb
        simp at hb
      · rw [dateLe, ha, hbd] at h1
        rw [dateLe, hbd, hc] at h2
        rw [dateLe, ha, hc]
        have e1 : lexLt x.data y.data = false := by
          cases hxy : lexLt x.data y.data
          · rfl
          · simp [jsLtOpt, jsStrLt, hxy] at h1
        have e2 : lexLt y.data z.data = false := by
          cases hyz : lexLt y.data z.data
          · rfl
          · simp [jsLtOpt, jsStrLt, hyz] at h2
        simp [jsLtOpt, jsStrLt, lexLt_neg_trans x.data y.data z.data e1 e2]

theorem keepA_isSome {x : Item} (h : keepA x = true) : x.date.isSome := by
  rcases hd : x.date with _ | s
  · simp [keepA, truthyOptStr, hd] at h
  · simp

/-! ## Sortedness of the sort model -/

theorem mem_jsInsert {x a : Item} {l : List Item} (h : x ∈ jsInsert a l) : x = a ∨ x ∈ l := by
  simpa using (jsInsert_perm a l).mem_iff.mp h

theorem pairwise_jsInsert (a : Item) (l : List Item)
    (hl : ∀ x ∈ l, x.date.isSome)
    (h : l.Pairwise (fun x y => dateLe x y = true)) :
    (jsInsert a l).Pairwise (fun x y => dateLe x y = true) := by
  induction l with
  | nil => simp [jsInsert]
  | cons b t ih =>
    obtain ⟨hb, ht⟩ := List.pairwise_cons.mp h
    cases hd : dateLe a b with
    | true =>
      simp only [jsInsert, hd, if_true]
      refine List.pairwise_cons.mpr ⟨?_, h⟩
      intro y hy
      rcases List.mem_cons.mp hy with rfl | hyt
      · exact hd
      · exact dateLe_trans_mid (hl b (List.mem_cons_self b t)) hd (hb y hyt)
    | false =>
      simp only [jsInsert, hd, Bool.false_eq_true, if_false]
      refine List.pairwise_cons.mpr
        ⟨?_, ih (fun x hx => hl x (List.mem_cons_of_mem b hx)) ht⟩
      intro y hy
      rcases mem_jsInsert hy with rfl | hyt
      · exact dateLe_swap hd
      · exact hb y hyt

theorem pairwise_jsSort (l : List Item) (hl : ∀ x ∈ l, x.date.isSome) :
    (jsSortByDateDesc l).Pairwise (fun x y => dateLe x y = true) := by
  induction l with
  | nil => simp [jsSortByDateDesc]
  | cons a t ih =>
    simp only [jsSortByDateDesc]
    refine pairwise_jsInsert a _ ?_ (ih fun x hx => hl x (List.mem_cons_of_mem a hx))
    intro x hx
    exact hl x (List.mem_cons_of_mem a (mem_jsSort hx))

/-! ## Claim C4 -/

/-- C4: for any input of valid candidates (truthy title, link and date),
the output of both versions of mergeAndSort is non-increasing by date
string across consecutive elements, i.e. no element's date is
lexicographically below its successor's date. -/
theorem c4_sorted (items : List Item) (hval : ∀ i ∈ items, keepA i = true) :
    (mergeAndSortA items).Chain' (fun a b => jsLtOpt a.date b.date = false)
      ∧ (mergeAndSortB items).Chain' (fun a b => jsLtOpt a.date b.date = false) := by
  have hsome : ∀ keep : Item → Bool,
      ∀ x ∈ (dedupeInto keep [] items).map Prod.snd, x.date.isSome := by
    intro keep x hx
    rcases mem_snd_dedupeInto hx with hm | ⟨hmem, _⟩
    · simp at hm
    · exact keepA_isSome (hval x hmem)
  constructor <;>
  · refine List.Pairwise.chain' (List.Pairwise.imp ?_ (pairwise_jsSort _ (hsome _)))
    intro a b hab
    simpa [dateLe] using hab

/-- C4, witness at a concrete two-record valid input. -/
theorem c4_witness :
    (∀ i ∈ [Item.mk "SEC" "t" "l" (some "2024-01-01") "d",
        Item.mk "SEC" "u" "m" (some "2024-05-01") "e"], keepA i = true)
      ∧ ((mergeAndSortA [Item.mk "SEC" "t" "l" (some "2024-01-01") "d",
            Item.mk "SEC" "u" "m" (some "2024-05-01") "e"]).Chain'
          (fun a b => jsLtOpt a.date b.date = false)
        ∧ (mergeAndSortB [Item.mk "SEC" "t" "l" (some "2024-01-01") "d",
            Item.mk "SEC" "u" "m" (some "2024-05-01") "e"]).Chain'
          (fun a b => jsLtOpt a.date b.date = false)) :=
  ⟨by decide,
    c4_sorted [Item.mk "SEC" "t" "l" (some "2024-01-01") "d",
      Item.mk "SEC" "u" "m" (some "2024-05-01") "e"] (by decide)⟩

/-! ## Dedupe characterization for C3 -/

theorem keysOf_mapSet_present {m : List (String × Item)} {k : String} {v : Item}
    (hp : m.any (fun p => decide (p.1 = k)) = true) :
    keysOf (mapSet m k v) = keysOf m := by
  unfold mapSet
  rw [if_pos hp]
  unfold keysOf
  rw [List.map_map]
  apply List.map_congr_left
  intro p _
  by_cases h : p.1 = k
  · simp [h]
  · simp [h]

theorem notMem_keysOf_of_not_any {m : List (String × Item)} {k : String}
    (hp : ¬ m.any (fun p => decide (p.1 = k)) = true) : k ∉ keysOf m := by
  intro hk
  rcases List.mem_map.mp hk with ⟨p, hpm, hpk⟩
  exact hp (List.any_eq_true.mpr ⟨p, hpm, by simp [hpk]⟩)

theorem nodup_keysOf_mapSet {m : List (String × Item)} {k : String} {v : Item}
    (h : (keysOf m).Nodup) : (keysOf (mapSet m k v)).Nodup := by
  by_cases hp : m.any (fun p => decide (p.1 = k)) = true
  · rw [keysOf_mapSet_present hp]
    exact h
  · unfold mapSet
    rw [if_neg hp]
    unfold keysOf
    rw [List.map_append]
    simp only [List.map_cons, List.map_nil]
    refine List.Nodup.append h (List.nodup_singleton k) ?_
    intro x hx hx'
    rcases List.mem_singleton.mp hx' with rfl
    exact notMem_keysOf_of_not_any hp hx

theorem filter_eq_nil_of_no_key {t : List (String × Item)} {k : String}
    (h : ∀ p ∈ t, p.1 ≠ k) :
    t.filter (fun p => decide (p.1 = k)) = [] := by
  rw [List.filter_eq_nil_iff]
  intro p hp
  simp [h p hp]

theorem filter_map_upd : ∀ (m : List (String × Item)) (k : String) (v : Item),
    (keysOf m).Nodup → (∃ p ∈ m, p.1 = k) →
    (m.map (fun p => if p.1 = k then (k, v) else p)).filter (fun p => decide (p.1 = k))
      = [(k, v)]
  | [], k, v => by
    intro _ hex
    simp at hex
  | q :: t, k, v => by
    intro hnd hex
    have hq_t : q.1 ∉ keysOf t := (List.nodup_cons.mp hnd).1
    have hnd' : (keysOf t).Nodup := (List.nodup_cons.mp hnd).2
    by_cases hq : q.1 = k
    · have hno : ∀ p ∈ t, p.1 ≠ k := by
        intro p hp hpk
        exact hq_t (hq ▸ hpk ▸ List.mem_map.mpr ⟨p, hp, rfl⟩)
      simp only [List.map_cons, hq, if_true]
      rw [List.filter_cons_of_pos (by simp)]
      have : ∀ p ∈ t.map (fun p => if p.1 = k then (k, v) else p), p.1 ≠ k := by
        intro p hp
        rcases List.mem_map.mp hp with ⟨p0, hp0, hp0e⟩
        rw [← hp0e]
        simp [hno p0 hp0]
      rw [filter_eq_nil_of_no_key this]
    · have hex' : ∃ p ∈ t, p.1 = k := by
        rcases hex with ⟨p, hp, hpk⟩
        rcases List.mem_cons.mp hp with rfl | hpt
        · exact absurd hpk hq
        · exact ⟨p, hpt, hpk⟩
      simp only [List.map_cons, hq, if_false]
      rw [List.filter_cons_of_neg (by simp [hq])]
      exact filter_map_upd t k v hnd' hex'

theorem filter_mapSet_self {m : List (String × Item)} {k : String} {v : Item}
    (hnd : (keysOf m).Nodup) :
    (mapSet m k v).filter (fun p => decide (p.1 = k)) = [(k, v)] := by
  by_cases hp : m.any (fun p => decide (p.1 = k)) = true
  · unfold mapSet
    rw [if_pos hp]
    rcases List.any_eq_true.mp hp with ⟨p, hpm, hpk⟩
    exact filter_map_upd m k v hnd ⟨p, hpm, by simpa using hpk⟩
  · unfold mapSet
    rw [if_neg hp]
    rw [List.filter_append]
    have : ∀ p ∈ m, p.1 ≠ k := by
      intro p hp' hpk
      exact hp (List.any_eq_true.mpr ⟨p, hp', by simp [hpk]⟩)
    rw [filter_eq_nil_of_no_key this]
    simp

theorem filter_map_upd_other {k k' : String} (hne : k' ≠ k) (v : Item) :
    ∀ (m : List (String × Item)),
    (m.map (fun p => if p.1 = k' then (k', v) else p)).filter (fun p => decide (p.1 = k))
      = m.filter (fun p => decide (p.1 = k))
  | [] => rfl
  | q :: t => by
    simp only [List.map_cons]
    by_cases hq : q.1 = k'
    · rw [if_pos hq]
      rw [List.filter_cons_of_neg (by simp [hne]), List.filter_cons_of_neg (by simp [hq, hne])]
      exact filter_map_upd_other hne v t
    · rw [if_neg hq]
      by_cases hqk : q.1 = k
      · rw [List.filter_cons_of_pos (by simp [hqk]), List.filter_cons_of_pos (by simp [hqk])]
        rw [filter_map_upd_other hne v t]
      · rw [List.filter_cons_of_neg (by simp [hqk]), List.filter_cons_of_neg (by simp [hqk])]
        exact filter_map_upd_other hne v t

theorem filter_mapSet_other {m : List (String × Item)} {k k' : String} {v : Item}
    (hne : k' ≠ k) :
    (mapSet m k' v).filter (fun p => decide (p.1 = k))
      = m.filter (fun p => decide (p.1 = k)) := by
  by_cases hp : m.any (fun p => decide (p.1 = k')) = true
  · unfold mapSet
    rw [if_pos hp]
    exact filter_map_upd_other hne v m
  · unfold mapSet
    rw [if_neg hp]
    rw [List.filter_append]
    rw [List.filter_cons_of_neg (by simp [hne])]
    simp

theorem nodup_keysOf_dedupeInto {keep : Item → Bool} :
    ∀ (items : List Item) (m : List (String × Item)),
    (keysOf m).Nodup → (keysOf (dedupeInto keep m items)).Nodup
  | [], _, h => h
  | i :: t, m, h => by
    show (keysOf (dedupeInto keep (if keep i then mapSet m (keyOf i) i else m) t)).Nodup
    apply nodup_keysOf_dedupeInto t
    cases hki : keep i with
    | true => simpa [hki] using nodup_keysOf_mapSet h
    | false => simpa [hki] using h

theorem filter_dedupeInto_no_key {keep : Item → Bool} {k : String} :
    ∀ (items : List Item) (m : List (String × Item)),
    (∀ i ∈ items, keyOf i ≠ k) →
    (dedupeInto keep m items).filter (fun p => decide (p.1 = k))
      = m.filter (fun p => decide (p.1 = k))
  | [], _, _ => rfl
  | i :: t, m, h => by
    show (dedupeInto keep (if keep i then mapSet m (keyOf i) i else m) t).filter _ = _
    rw [filter_dedupeInto_no_key t _ (fun j hj => h j (List.mem_cons_of_mem i hj))]
    cases hki : keep i with
    | true =>
      simp only [hki, if_true]
      exact filter_mapSet_other (h i (List.mem_cons_self i t))
    | false => simp [hki]

theorem filter_dedupeInto_last {keep : Item → Bool} {r2 : Item} {l3 : List Item}
    {m : List (String × Item)}
    (hnd : (keysOf m).Nodup) (hk : keep r2 = true)
    (h3 : ∀ i ∈ l3, keyOf i ≠ keyOf r2) :
    (dedupeInto keep m (r2 :: l3)).filter (fun p => decide (p.1 = keyOf r2))
      = [(keyOf r2, r2)] := by
  show (dedupeInto keep (if keep r2 then mapSet m (keyOf r2) r2 else m) l3).filter _ = _
  rw [filter_dedupeInto_no_key l3 _ h3]
  simp only [hk, if_true]
  exact filter_mapSet_self hnd

theorem fst_eq_keyOf_mapSet {m : List (String × Item)} {v : Item}
    (h : ∀ p ∈ m, p.1 = keyOf p.2) :
    ∀ p ∈ mapSet m (keyOf v) v, p.1 = keyOf p.2 := by
  intro p hp
  unfold mapSet at hp
  split at hp
  · rcases List.mem_map.mp hp with ⟨q, hq, hqp⟩
    by_cases hqk : q.1 = keyOf v
    · rw [← hqp]
      simp [hqk]
    · rw [← hqp]
      simp only [hqk, if_false]
      exact h q hq
  · rcases List.mem_append.mp hp with h1 | h1
    · exact h p h1
    · rcases List.mem_singleton.mp h1 with rfl
      rfl

theorem fst_eq_keyOf_dedupeInto {keep : Item → Bool} :
    ∀ (items : List Item) (m : List (String × Item)),
    (∀ p ∈ m, p.1 = keyOf p.2) →
    ∀ p ∈ dedupeInto keep m items, p.1 = keyOf p.2
  | [], _, h => h
  | i :: t, m, h => by
    show ∀ p ∈ dedupeInto keep (if keep i then mapSet m (keyOf i) i else m) t, _
    apply fst_eq_keyOf_dedupeInto t
    cases hki : keep i with
    | true => simpa [hki] using fst_eq_keyOf_mapSet h
    | false => simpa [hki] using h

theorem filter_values {m : List (String × Item)} {k : String}
    (h : ∀ p ∈ m, p.1 = keyOf p.2) :
    (m.map Prod.snd).filter (fun r => decide (keyOf r = k))
      = (m.filter (fun p => decide (p.1 = k))).map Prod.snd := by
  induction m with
  | nil => rfl
  | cons q t ih =>
    have hq := h q (List.mem_cons_self q t)
    have ih' := ih (fun p hp => h p (List.mem_cons_of_mem q hp))
    by_cases hc : keyOf q.2 = k
    · rw [List.map_cons, List.filter_cons_of_pos (by simp [hc]),
        List.filter_cons_of_pos (by simp [hq, hc]), List.map_cons, ih']
    · rw [List.map_cons, List.filter_cons_of_neg (by simp [hc]),
        List.filter_cons_of_neg (by simp [hq, hc]), ih']

theorem c3_generic (keep : Item → Bool) (l1 l3 : List Item) (r2 : Item)
    (hk2 : keep r2 = true)
    (hlast : ∀ i ∈ l3, keyOf i ≠ keyOf r2) :
    (jsSortByDateDesc ((dedupeInto keep [] (l1 ++ r2 :: l3)).map Prod.snd)).filter
      (fun r => decide (keyOf r = keyOf r2)) = [r2] := by
  have hnd : (keysOf (dedupeInto keep [] l1)).Nodup :=
    nodup_keysOf_dedupeInto l1 [] (by simp [keysOf])
  have hinv : ∀ p ∈ dedupeInto keep [] (l1 ++ r2 :: l3), p.1 = keyOf p.2 :=
    fst_eq_keyOf_dedupeInto _ [] (by simp)
  have hsplit : dedupeInto keep [] (l1 ++ r2 :: l3)
      = dedupeInto keep (dedupeInto keep [] l1) (r2 :: l3) := by
    unfold dedupeInto
    rw [List.foldl_append]
  have hentries : (dedupeInto keep [] (l1 ++ r2 :: l3)).filter
      (fun p => decide (p.1 = keyOf r2)) = [(keyOf r2, r2)] := by
    rw [hsplit]
    exact filter_dedupeInto_last hnd hk2 hlast
  have hvals : ((dedupeInto keep [] (l1 ++ r2 :: l3)).map Prod.snd).filter
      (fun r => decide (keyOf r = keyOf r2)) = [r2] := by
    rw [filter_values hinv, hentries]
    rfl
  have hperm := (jsSort_perm ((dedupeInto keep [] (l1 ++ r2 :: l3)).map Prod.snd)).filter
    (fun r => decide (keyOf r = keyOf r2))
  rw [hvals] at hperm
  exact List.perm_singleton.mp hperm

/-! ## Claim C3 -/

/-- C3: for any input sequence holding two complete candidates with the
same (title, link, date) triple, the later-inserted one of which has no
later record sharing its identity key, the reconciled output of both
versions of mergeAndSort contains exactly one record with that identity
key, and that record is the later-inserted candidate, with all of its
fields (description and source included). -/
theorem c3_last_wins (l1 l2 l3 : List Item) (r1 r2 : Item)
    (ht : r1.title = r2.title) (hlk : r1.link = r2.link) (hdt : r1.date = r2.date)
    (hk1 : keepA r1 = true) (hk2 : keepA r2 = true)
    (hlast : ∀ i ∈ l3, keyOf i ≠ keyOf r2) :
    (mergeAndSortA (l1 ++ r1 :: l2 ++ r2 :: l3)).filter
        (fun r => decide (keyOf r = keyOf r2)) = [r2]
      ∧ (mergeAndSortB (l1 ++ r1 :: l2 ++ r2 :: l3)).filter
        (fun r => decide (keyOf r = keyOf r2)) = [r2] := by
  have he : l1 ++ r1 :: l2 ++ r2 :: l3 = (l1 ++ r1 :: l2) ++ r2 :: l3 := by
    simp [List.append_assoc]
  rw [mergeAndSortA, mergeAndSortB, he]
  exact ⟨c3_generic keepA (l1 ++ r1 :: l2) l3 r2 hk2 hlast,
    c3_generic keepB (l1 ++ r1 :: l2) l3 r2 rfl hlast⟩

/-- C3, witness: two complete candidates differing only in source and
description collapse to the later one. -/
theorem c3_witness :
    keyOf (Item.mk "OTC" "A" "L" (some "2024-01-01") "d1")
        = keyOf (Item.mk "SEC" "A" "L" (some "2024-01-01") "d2")
      ∧ (mergeAndSortA [Item.mk "OTC" "A" "L" (some "2024-01-01") "d1",
            Item.mk "SEC" "A" "L" (some "2024-01-01") "d2"]).filter
          (fun r => decide (keyOf r = keyOf (Item.mk "SEC" "A" "L" (some "2024-01-01") "d2")))
          = [Item.mk "SEC" "A" "L" (some "2024-01-01") "d2"] :=
  ⟨by decide,
    (c3_last_wins [] [] [] (Item.mk "OTC" "A" "L" (some "2024-01-01") "d1")
      (Item.mk "SEC" "A" "L" (some "2024-01-01") "d2") rfl rfl rfl (by decide) (by decide)
      (by decide)).1⟩

/-! ## Date normalizer roundtrip for C6 -/

theorem digit_facts (k : Nat) (hk : k < 10) :
    isDigitCp (Nat.digitChar k) = true ∧ digitVal (Nat.digitChar k) = k := by
  interval_cases k <;> exact ⟨by decide, by decide⟩

theorem jsParseDateOnly_render (y m d : Nat) (hy : y ≤ 9999) (hm1 : 1 ≤ m) (hm2 : m ≤ 12)
    (hd1 : 1 ≤ d) (hd2 : d ≤ daysInMonth y m) :
    jsParseDateOnly (renderISODate y m d) = some (y, m, d) := by
  have q1 := digit_facts (y / 1000 % 10) (Nat.mod_lt _ (by norm_num))
  have q2 := digit_facts (y / 100 % 10) (Nat.mod_lt _ (by norm_num))
  have q3 := digit_facts (y / 10 % 10) (Nat.mod_lt _ (by norm_num))
  have q4 := digit_facts (y % 10) (Nat.mod_lt _ (by norm_num))
  have q5 := digit_facts (m / 10 % 10) (Nat.mod_lt _ (by norm_num))
  have q6 := digit_facts (m % 10) (Nat.mod_lt _ (by norm_num))
  have q7 := digit_facts (d / 10 % 10) (Nat.mod_lt _ (by norm_num))
  have q8 := digit_facts (d % 10) (Nat.mod_lt _ (by norm_num))
  have hy' : ((y / 1000 % 10 * 10 + y / 100 % 10) * 10 + y / 10 % 10) * 10 + y % 10 = y := by
    omega
  have hdim : daysInMonth y m ≤ 31 := by
    unfold daysInMonth
    split_ifs <;> omega
  have hm' : m / 10 % 10 * 10 + m % 10 = m := by omega
  have hd' : d / 10 % 10 * 10 + d % 10 = d := by omega
  simp only [renderISODate, jsParseDateOnly, q1.1, q2.1, q3.1, q4.1, q5.1, q6.1, q7.1, q8.1,
    q1.2, q2.2, q3.2, q4.2, q5.2, q6.2, q7.2, q8.2, hy', hm', hd']
  simp [hm1, hm2, hd1, hd2]

/-! ## Claim C6 -/

/-- C6: the date normalizer is the identity on every already-canonical
date string, i.e. on every zero-padded `YYYY-MM-DD` rendering of a valid
calendar date with a four-digit year. -/
theorem c6_idempotent (s : String) (h : IsCanonicalDate s) :
    toISO (JSVal.str s) = some s := by
  obtain ⟨y, m, d, ⟨hy, hm1, hm2, hd1, hd2⟩, rfl⟩ := h
  have hne : renderISODate y m d ≠ "" := by
    intro he
    have hd0 := congrArg String.data he
    simp [renderISODate] at hd0
  have htr : jsTruthy (JSVal.str (renderISODate y m d)) = true := by
    simp [jsTruthy, truthyStr, hne]
  simp only [toISO, htr, if_true]
  rw [jsParseDateOnly_render y m d hy hm1 hm2 hd1 hd2]

/-- C6, witness at the canonical date string 2024-03-01. -/
theorem c6_witness :
    IsCanonicalDate "2024-03-01"
      ∧ toISO (JSVal.str "2024-03-01") = some "2024-03-01" :=
  ⟨⟨2024, 3, 1, by unfold ValidYMD; decide, by decide⟩,
    c6_idempotent "2024-03-01" ⟨2024, 3, 1, by unfold ValidYMD; decide, by decide⟩⟩
